import Mathlib

set_option maxHeartbeats 1000000

/-!
Verification of the profile reconciliation and device-authorization core of
the easy-git-switcher application (src/app.py).

The embedding mirrors the Python source:

* a Python profile `dict` becomes the structure `Profile`; a field that may be
  absent from the dict (or present as the empty string, which Python
  truthiness treats the same wherever the source tests it) is an
  `Option String`, and `truthy` models Python truthiness of such a value;
* `self.profiles` (a `dict` preserving insertion order with unique keys)
  becomes an association list `ProfileCollection`;
* the single credential slot read back from `git credential fill` becomes
  `GitCredential` (the spec calls it ExternalCredential);
* the external git configuration/credential state touched by
  `update_git_config` / `clear_git_config` becomes `GitState`; each external
  subprocess sequence is given a boolean outcome (`gitOk`) telling whether the
  git subprocess calls succeed (raising `CalledProcessError` otherwise);
* the OAuth device-flow dialog (`GitHubOAuthDialog`) becomes `Session`, its
  two timer callbacks become `poll_for_token` and `update_timer`, and the Qt
  modal-dialog event delivery (timer callbacks run only while the dialog's
  event loop is running, i.e. before `accept()`/`reject()` closes it) becomes
  the dispatcher `step` guarded by `dialogOpen`.
-/

/-- Python truthiness of an optional string value: `None` and `''` are falsy,
every other string is truthy. -/
def truthy : Option String → Bool
  | none => false
  | some s => s ≠ ""

/-- Python's `x or d` for an optional string `x`: the value when truthy,
otherwise the default. Used for `git_profile.get('name') or username` and
`email or ''` in src/app.py. -/
def strOr : Option String → String → String
  | none, d => d
  | some s, d => if s = "" then d else s

/-- One profile record, as stored in `self.profiles[username]` (a JSON-like
dict).  `is_current` models `profile.get('is_current', False)`. -/
structure Profile where
  token : Option String := none
  name : Option String := none
  email : Option String := none
  tag : Option String := none
  avatar_url : Option String := none
  is_current : Bool := false
  deriving DecidableEq, Repr

/-- The profile store `self.profiles`: an insertion-ordered mapping from
username to profile, embedded as an association list. -/
abbrev ProfileCollection := List (String × Profile)

/-- The single external credential slot returned by
`get_git_credentials` (the dict `git_profile` in `merge_profiles`); any of
its keys may be absent. -/
structure GitCredential where
  username : Option String := none
  password : Option String := none
  name : Option String := none
  email : Option String := none
  deriving DecidableEq, Repr

/-- Keys of the collection, in mapping order. -/
def keysOf (c : ProfileCollection) : List String := c.map Prod.fst

/-- First profile stored under a username (`self.profiles.get(username)`;
Python dict keys are unique, so first means only). -/
def lookupProfile : ProfileCollection → String → Option Profile
  | [], _ => none
  | (k, p) :: rest, u => if k = u then some p else lookupProfile rest u

/-- Rewrite every entry of the collection with a key-dependent function;
this is the shape of each Python `for username, profile in
self.profiles.items()` mutation loop. -/
def mapEntries (f : String → Profile → Profile) : ProfileCollection → ProfileCollection
  | [] => []
  | (k, p) :: rest => (k, f k p) :: mapEntries f rest

/-- Replace the profile stored under key `u`
(`self.profiles[username] = profile`). -/
def setProfile (c : ProfileCollection) (u : String) (p : Profile) : ProfileCollection :=
  mapEntries (fun k q => if k = u then p else q) c

/-- First statement of the existing-profile branch of `merge_profiles`
(src/app.py lines 407-408): fill `email` from the git credential only when
the credential's email is truthy and the stored one is not. -/
def fillEmail (existing : Profile) (git_profile : GitCredential) : Profile :=
  if truthy git_profile.email && !truthy existing.email then
    { existing with email := git_profile.email }
  else existing

/-- Both statements of the existing-profile branch of `merge_profiles`
(src/app.py lines 407-410): fill `email`, then fill `name` under the same
only-if-missing rule; the stored token is never touched. -/
def fillMissing (existing : Profile) (git_profile : GitCredential) : Profile :=
  if truthy git_profile.name && !truthy (fillEmail existing git_profile).name then
    { fillEmail existing git_profile with name := git_profile.name }
  else fillEmail existing git_profile

/-- The fresh profile dict built by the new-profile branch of
`merge_profiles` (src/app.py lines 414-419). -/
def profileFromGit (git_profile : GitCredential) (username password : String) : Profile :=
  { token := some password
    name := some (strOr git_profile.name username)
    email := some (strOr git_profile.email "")
    tag := some "N/A"
    avatar_url := none
    is_current := false }

/-- `GitHubProfileManager.merge_profiles` (src/app.py lines 402-423): merge
the external git credential slot into the keyring-loaded profiles.  The
guard `if username and 'password' in git_profile` requires a truthy username
and a present (not necessarily truthy) password; an existing profile only has
empty `email`/`name` filled in and never has its token touched; an unknown
username is appended as a fresh profile. -/
def merge_profiles (keyring_profiles : ProfileCollection) (git_profile : GitCredential) :
    ProfileCollection :=
  match git_profile.username, git_profile.password with
  | some username, some password =>
    if username = "" then keyring_profiles
    else
      match lookupProfile keyring_profiles username with
      | some existing =>
        setProfile keyring_profiles username (fillMissing existing git_profile)
      | none =>
        keyring_profiles ++ [(username, profileFromGit git_profile username password)]
  | _, _ => keyring_profiles

/-- `GitHubProfileManager.get_current_profile` (src/app.py lines 456-471),
its pure core: scan the collection in mapping order and return the first
username whose stored name/email (with `''` defaults) equal the global git
`user.name`/`user.email`. -/
def get_current_profile (c : ProfileCollection) (current_name current_email : String) :
    Option String :=
  match c with
  | [] => none
  | (username, profile) :: rest =>
    if profile.name.getD "" = current_name ∧ profile.email.getD "" = current_email then
      some username
    else get_current_profile rest current_name current_email

/-- `GitHubProfileManager.update_current_profile` (src/app.py lines 656-659):
set `is_current` on exactly the entries whose key is the new current
username. -/
def update_current_profile (c : ProfileCollection) (new_current_username : String) :
    ProfileCollection :=
  mapEntries (fun username p => { p with is_current := decide (username = new_current_username) }) c

/-- The `is_current`-clearing loop shared by `load_profiles` (no current
match) and `clear_git_config`. -/
def clearFlags (c : ProfileCollection) : ProfileCollection :=
  mapEntries (fun _ p => { p with is_current := false }) c

/-- Number of profiles currently flagged active. -/
def countActive (c : ProfileCollection) : Nat :=
  (c.filter (fun kv => kv.2.is_current)).length

-- Basic lemmas about the association-list operations.

theorem keysOf_mapEntries (f : String → Profile → Profile) (c : ProfileCollection) :
    keysOf (mapEntries f c) = keysOf c := by
  induction c with
  | nil => rfl
  | cons kv rest ih =>
    cases kv
    simp [keysOf, mapEntries] at ih ⊢
    exact ih

theorem lookupProfile_mapEntries (f : String → Profile → Profile) (c : ProfileCollection)
    (u : String) :
    lookupProfile (mapEntries f c) u = (lookupProfile c u).map (f u) := by
  induction c with
  | nil => rfl
  | cons kv rest ih =>
    cases kv with
    | mk k p =>
      by_cases hk : k = u
      · subst hk
        simp [mapEntries, lookupProfile]
      · simp [mapEntries, lookupProfile, hk, ih]

theorem lookupProfile_none_iff (c : ProfileCollection) (u : String) :
    lookupProfile c u = none ↔ u ∉ keysOf c := by
  induction c with
  | nil => simp [lookupProfile, keysOf]
  | cons kv rest ih =>
    cases kv with
    | mk k p =>
      by_cases hk : k = u
      · subst hk
        simp [lookupProfile, keysOf]
      · simp [lookupProfile, keysOf, hk, ih]
        intro h
        exact fun hh => hk hh.symm

theorem lookupProfile_append_right (c d : ProfileCollection) (u : String)
    (h : lookupProfile c u = none) :
    lookupProfile (c ++ d) u = lookupProfile d u := by
  induction c with
  | nil => rfl
  | cons kv rest ih =>
    cases kv with
    | mk k p =>
      by_cases hk : k = u
      · simp [lookupProfile, hk] at h
      · simp [lookupProfile, hk] at h ⊢
        exact ih h

theorem setProfile_of_not_mem (c : ProfileCollection) (u : String) (p : Profile)
    (h : u ∉ keysOf c) : setProfile c u p = c := by
  induction c with
  | nil => rfl
  | cons kv rest ih =>
    cases kv with
    | mk k q =>
      simp only [keysOf, List.map_cons, List.mem_cons, not_or] at h
      have hrest := ih (by simpa [keysOf] using h.2)
      simp only [setProfile, mapEntries] at hrest ⊢
      rw [if_neg (fun hh => h.1 hh.symm), hrest]

theorem mapEntries_append (f : String → Profile → Profile) (c d : ProfileCollection) :
    mapEntries f (c ++ d) = mapEntries f c ++ mapEntries f d := by
  induction c with
  | nil => rfl
  | cons kv rest ih =>
    cases kv
    simp [mapEntries, ih]

theorem setProfile_setProfile (c : ProfileCollection) (u : String) (p : Profile) :
    setProfile (setProfile c u p) u p = setProfile c u p := by
  induction c with
  | nil => rfl
  | cons kv rest ih =>
    cases kv with
    | mk k q =>
      by_cases hk : k = u <;>
        · simp only [setProfile, mapEntries, hk] at ih ⊢
          simp [ih]

theorem strOr_ne_empty (o : Option String) (d : String) (hd : d ≠ "") : strOr o d ≠ "" := by
  cases o with
  | none => simpa [strOr] using hd
  | some s => by_cases hs : s = "" <;> simp [strOr, hs, hd]

theorem strOr_of_truthy (o : Option String) (d : String) (h : truthy o = true) :
    some (strOr o d) = o := by
  cases o with
  | none => simp [truthy] at h
  | some s =>
    simp only [truthy, ne_eq, decide_eq_true_eq] at h
    simp [strOr, h]

theorem truthy_eq_false (o : Option String) (h : ¬ truthy o = true) : truthy o = false := by
  cases hh : truthy o
  · rfl
  · exact absurd hh h

-- Frame facts about the only-if-missing fill of `merge_profiles`.

theorem fillEmail_token (p : Profile) (g : GitCredential) : (fillEmail p g).token = p.token := by
  unfold fillEmail
  split <;> rfl

theorem fillEmail_name (p : Profile) (g : GitCredential) : (fillEmail p g).name = p.name := by
  unfold fillEmail
  split <;> rfl

theorem fillEmail_of_truthy (p : Profile) (g : GitCredential) (h : truthy p.email = true) :
    fillEmail p g = p := by
  simp [fillEmail, h]

theorem fillMissing_token (p : Profile) (g : GitCredential) :
    (fillMissing p g).token = p.token := by
  unfold fillMissing
  split <;> exact fillEmail_token p g

theorem fillMissing_email (p : Profile) (g : GitCredential) :
    (fillMissing p g).email = (fillEmail p g).email := by
  unfold fillMissing
  split <;> rfl

theorem fillMissing_email_of_truthy (p : Profile) (g : GitCredential)
    (h : truthy p.email = true) : (fillMissing p g).email = p.email := by
  rw [fillMissing_email, fillEmail_of_truthy p g h]

theorem fillMissing_name_of_truthy (p : Profile) (g : GitCredential)
    (h : truthy p.name = true) : (fillMissing p g).name = p.name := by
  unfold fillMissing
  rw [fillEmail_name, h]
  simp [fillEmail_name]

theorem fillMissing_truthy_email (p : Profile) (g : GitCredential)
    (hg : truthy g.email = true) : truthy (fillMissing p g).email = true := by
  rw [fillMissing_email]
  unfold fillEmail
  by_cases hp : truthy p.email = true
  · simp [hp]
  · simp [truthy_eq_false p.email hp, hg]

theorem fillMissing_truthy_name (p : Profile) (g : GitCredential)
    (hg : truthy g.name = true) : truthy (fillMissing p g).name = true := by
  unfold fillMissing
  by_cases hfe : truthy (fillEmail p g).name = true
  · simp [hfe]
  · simp [truthy_eq_false _ hfe, hg]

theorem fillMissing_fillMissing (p : Profile) (g : GitCredential) :
    fillMissing (fillMissing p g) g = fillMissing p g := by
  have h1 : fillEmail (fillMissing p g) g = fillMissing p g := by
    unfold fillEmail
    by_cases hg : truthy g.email = true
    · simp [fillMissing_truthy_email p g hg]
    · simp [truthy_eq_false _ hg]
  rw [show fillMissing (fillMissing p g) g =
      if truthy g.name && !truthy (fillEmail (fillMissing p g) g).name then
        { fillEmail (fillMissing p g) g with name := g.name }
      else fillEmail (fillMissing p g) g from rfl]
  rw [h1]
  by_cases hg : truthy g.name = true
  · rw [fillMissing_truthy_name p g hg]
    simp
  · rw [truthy_eq_false _ hg]
    simp

theorem lookupProfile_setProfile_self (c : ProfileCollection) (u : String) (p q : Profile)
    (h : lookupProfile c u = some q) : lookupProfile (setProfile c u p) u = some p := by
  simp [setProfile, lookupProfile_mapEntries, h]

/-- Claim C4 — the merge is non-destructive for existing profiles: when the
external credential carries the username of a stored profile, the stored
token is never replaced, and a non-empty stored email or display name is kept
verbatim no matter what the external credential holds. -/
theorem merge_nondestructive (P : ProfileCollection) (E : GitCredential) (id : String)
    (p : Profile) (hp : lookupProfile P id = some p) (hid : E.username = some id) :
    ∃ q, lookupProfile (merge_profiles P E) id = some q ∧
      q.token = p.token ∧
      (truthy p.email = true → q.email = p.email) ∧
      (truthy p.name = true → q.name = p.name) := by
  obtain ⟨eu, epw, en, ee⟩ := E
  cases hid
  cases epw with
  | none => exact ⟨p, hp, rfl, fun _ => rfl, fun _ => rfl⟩
  | some pw =>
    by_cases h0 : id = ""
    · refine ⟨p, ?_, rfl, fun _ => rfl, fun _ => rfl⟩
      simpa [merge_profiles, h0] using hp
    · refine ⟨fillMissing p ⟨some id, some pw, en, ee⟩, ?_, fillMissing_token p _,
        fun h => fillMissing_email_of_truthy p _ h, fun h => fillMissing_name_of_truthy p _ h⟩
      simp only [merge_profiles, h0, hp]
      simp [h0, lookupProfile_setProfile_self P id _ p hp]

/-- Witness for C4 at a concrete input: a stored profile with non-empty email
and name keeps both, and its token, across a merge with a conflicting
external credential. -/
theorem merge_nondestructive_witness :
    ∃ q, lookupProfile
        (merge_profiles
          [("alice", { token := some "kept", name := some "Alice", email := some "a@x.com" })]
          { username := some "alice", password := some "other"
            name := some "Other", email := some "other@x.com" }) "alice" = some q ∧
      q.token = some "kept" ∧
      (truthy (some "a@x.com") = true → q.email = some "a@x.com") ∧
      (truthy (some "Alice") = true → q.name = some "Alice") :=
  merge_nondestructive
    [("alice", { token := some "kept", name := some "Alice", email := some "a@x.com" })]
    { username := some "alice", password := some "other"
      name := some "Other", email := some "other@x.com" } "alice"
    { token := some "kept", name := some "Alice", email := some "a@x.com" } rfl rfl

theorem fillMissing_profileFromGit (en ee : Option String) (eu : Option String)
    (epw : Option String) (u pw : String) (h0 : u ≠ "") :
    fillMissing (profileFromGit ⟨eu, epw, en, ee⟩ u pw) ⟨eu, epw, en, ee⟩ =
      profileFromGit ⟨eu, epw, en, ee⟩ u pw := by
  have hname : truthy (profileFromGit ⟨eu, epw, en, ee⟩ u pw).name = true := by
    simp [profileFromGit, truthy, strOr_ne_empty en u h0]
  have hfe : fillEmail (profileFromGit ⟨eu, epw, en, ee⟩ u pw) ⟨eu, epw, en, ee⟩ =
      profileFromGit ⟨eu, epw, en, ee⟩ u pw := by
    unfold fillEmail
    by_cases hge : truthy ee = true
    · have hpe : truthy (profileFromGit ⟨eu, epw, en, ee⟩ u pw).email = true := by
        show truthy (some (strOr ee "")) = true
        rw [strOr_of_truthy ee "" hge]
        exact hge
      simp [hpe]
    · simp [truthy_eq_false _ hge]
  unfold fillMissing
  rw [hfe, hname]
  simp

theorem setProfile_append_self (c : ProfileCollection) (u : String) (p : Profile)
    (h : lookupProfile c u = none) :
    setProfile (c ++ [(u, p)]) u p = c ++ [(u, p)] := by
  have hmem : u ∉ keysOf c := (lookupProfile_none_iff c u).mp h
  show mapEntries _ (c ++ [(u, p)]) = c ++ [(u, p)]
  rw [mapEntries_append]
  have h1 : mapEntries (fun k q => if k = u then p else q) c = c := setProfile_of_not_mem c u p hmem
  rw [h1]
  simp [mapEntries]

/-- Claim C5 — the merge is idempotent: re-running `merge_profiles` with the
same external credential leaves the once-merged collection unchanged. -/
theorem merge_idempotent (P : ProfileCollection) (E : GitCredential) :
    merge_profiles (merge_profiles P E) E = merge_profiles P E := by
  obtain ⟨eu, epw, en, ee⟩ := E
  cases eu with
  | none => rfl
  | some u =>
    cases epw with
    | none => rfl
    | some pw =>
      by_cases h0 : u = ""
      · subst h0
        simp [merge_profiles]
      · cases hl : lookupProfile P u with
        | some p =>
          have hinner : merge_profiles P ⟨some u, some pw, en, ee⟩ =
              setProfile P u (fillMissing p ⟨some u, some pw, en, ee⟩) := by
            simp [merge_profiles, h0, hl]
          rw [hinner]
          have hlook := lookupProfile_setProfile_self P u
            (fillMissing p ⟨some u, some pw, en, ee⟩) p hl
          simp only [merge_profiles, h0, hlook, if_neg h0]
          rw [fillMissing_fillMissing, setProfile_setProfile]
          simp
        | none =>
          have hinner : merge_profiles P ⟨some u, some pw, en, ee⟩ =
              P ++ [(u, profileFromGit ⟨some u, some pw, en, ee⟩ u pw)] := by
            simp [merge_profiles, h0, hl]
          rw [hinner]
          have hlook : lookupProfile
              (P ++ [(u, profileFromGit ⟨some u, some pw, en, ee⟩ u pw)]) u =
              some (profileFromGit ⟨some u, some pw, en, ee⟩ u pw) := by
            rw [lookupProfile_append_right _ _ _ hl]
            simp [lookupProfile]
          simp only [merge_profiles, hlook, if_neg h0]
          rw [fillMissing_profileFromGit en ee (some u) (some pw) u pw h0,
            setProfile_append_self _ _ _ hl]

/-- The external credential of claim C6's scenario. -/
def extAlice : GitCredential :=
  { username := some "alice", password := some "t1"
    name := some "Alice A", email := some "a@x.com" }

/-- An external credential that carries an identifier but no secret: it does
not lack both fields, so claim C6 as stated predicts a synthesized profile. -/
def extIdOnly : GitCredential := { username := some "alice" }

/-- Counterexample to claim C6 as stated: the external credential
`{identifier: "alice"}` does not lack both identifier and secret, and
`"alice"` is not in the (empty) persisted collection, yet `merge_profiles`
synthesizes nothing — the guard requires identifier AND secret, so the
collection is returned unchanged. -/
theorem merge_case_split_counterexample :
    truthy extIdOnly.username = true ∧ lookupProfile [] "alice" = none ∧
      merge_profiles [] extIdOnly = [] := by
  decide

/-- Claim C6 as amended: if the external credential lacks its identifier
(missing or empty) OR lacks its secret, the persisted collection is returned
unchanged; if it has both and the identifier is unknown, a fresh profile is
appended with tag "N/A", displayName `external.name or identifier` and email
`external.email or ""`; in particular the alice scenario holds. -/
theorem merge_case_split_amended :
    (∀ (P : ProfileCollection) (E : GitCredential),
        truthy E.username = false ∨ E.password = none → merge_profiles P E = P)
  ∧ (∀ (P : ProfileCollection) (E : GitCredential) (u pw : String),
        E.username = some u → u ≠ "" → E.password = some pw →
        lookupProfile P u = none →
        merge_profiles P E = P ++ [(u, profileFromGit E u pw)])
  ∧ merge_profiles [] extAlice =
      [("alice",
        { token := some "t1", name := some "Alice A", email := some "a@x.com"
          tag := some "N/A", avatar_url := none, is_current := false })] := by
  refine ⟨?_, ?_, by decide⟩
  · intro P E h
    obtain ⟨eu, epw, en, ee⟩ := E
    cases eu with
    | none => rfl
    | some u =>
      cases epw with
      | none => rfl
      | some pw =>
        rcases h with h | h
        · have hu : u = "" := by simpa [truthy] using h
          subst hu
          simp [merge_profiles]
        · exact absurd h (by simp)
  · intro P E u pw hu h0 hpw hl
    obtain ⟨eu, epw, en, ee⟩ := E
    cases hu
    cases hpw
    simp [merge_profiles, h0, hl]

/-- Witness for the amended C6 at concrete inputs: an identifier-only
credential leaves a one-profile store unchanged, and the alice credential is
appended to the empty store as `profileFromGit` describes. -/
theorem merge_case_split_amended_witness :
    merge_profiles [("bob", { token := some "tb" })] extIdOnly =
      [("bob", { token := some "tb" })] ∧
    merge_profiles [] extAlice = [] ++ [("alice", profileFromGit extAlice "alice" "t1")] :=
  ⟨merge_case_split_amended.1 [("bob", { token := some "tb" })] extIdOnly (Or.inr rfl),
   merge_case_split_amended.2.1 [] extAlice "alice" "t1" rfl (by decide) rfl rfl⟩

/-- Claim C10 — the merge never copies the external secret onto an existing
profile: a stored profile without a token still has no token after merging
with an external credential for the same identifier carrying a non-empty
secret. -/
theorem merge_keeps_missing_token (P : ProfileCollection) (E : GitCredential) (id : String)
    (p : Profile) (hp : lookupProfile P id = some p) (htok : p.token = none)
    (hid : E.username = some id) (hpw : truthy E.password = true) :
    ∃ q, lookupProfile (merge_profiles P E) id = some q ∧ q.token = none := by
  obtain ⟨eu, epw, en, ee⟩ := E
  cases hid
  cases epw with
  | none => exact ⟨p, hp, htok⟩
  | some pw =>
    by_cases h0 : id = ""
    · refine ⟨p, ?_, htok⟩
      simpa [merge_profiles, h0] using hp
    · refine ⟨fillMissing p ⟨some id, some pw, en, ee⟩, ?_, ?_⟩
      · simp only [merge_profiles, h0, hp]
        simp [h0, lookupProfile_setProfile_self P id _ p hp]
      · rw [fillMissing_token]
        exact htok

/-- Witness for C10 at a concrete input: a token-less stored profile stays
token-less when merged with a credential holding a non-empty secret. -/
theorem merge_keeps_missing_token_witness :
    ∃ q, lookupProfile
        (merge_profiles [("carl", { name := some "Carl" })]
          { username := some "carl", password := some "secret" }) "carl" = some q ∧
      q.token = none :=
  merge_keeps_missing_token [("carl", { name := some "Carl" })]
    { username := some "carl", password := some "secret" } "carl"
    { name := some "Carl" } rfl rfl rfl (by decide)

/-- Claim C7 — `get_current_profile` returns the identifier of the first
profile in mapping order whose (displayName, email) pair (with empty-string
defaults) equals the external git identity pair, and returns none exactly
when no profile matches; with duplicate name+email pairs the first match in
mapping order wins. -/
theorem get_current_profile_first_match (c : ProfileCollection) (n e : String) :
    (∀ u, get_current_profile c n e = some u →
      ∃ pre p post, c = pre ++ (u, p) :: post ∧
        (p.name.getD "" = n ∧ p.email.getD "" = e) ∧
        ∀ kv ∈ pre, ¬(kv.2.name.getD "" = n ∧ kv.2.email.getD "" = e))
  ∧ (get_current_profile c n e = none ↔
      ∀ kv ∈ c, ¬(kv.2.name.getD "" = n ∧ kv.2.email.getD "" = e)) := by
  induction c with
  | nil =>
    refine ⟨fun u h => ?_, by simp [get_current_profile]⟩
    simp [get_current_profile] at h
  | cons kv rest ih =>
    obtain ⟨k, p⟩ := kv
    by_cases hm : p.name.getD "" = n ∧ p.email.getD "" = e
    · refine ⟨fun u h => ?_, ?_⟩
      · simp only [get_current_profile, if_pos hm, Option.some.injEq] at h
        subst h
        exact ⟨[], p, rest, rfl, hm, by simp⟩
      · constructor
        · intro h
          simp only [get_current_profile, if_pos hm] at h
          exact absurd h (by simp)
        · intro h
          exact absurd hm (h (k, p) (by simp))
    · refine ⟨fun u h => ?_, ?_⟩
      · simp only [get_current_profile, if_neg hm] at h
        obtain ⟨pre, p', post, hc, hp', hpre⟩ := ih.1 u h
        refine ⟨(k, p) :: pre, p', post, by rw [hc]; rfl, hp', ?_⟩
        intro kv hkv
        rcases List.mem_cons.mp hkv with h1 | h1
        · rw [h1]
          exact hm
        · exact hpre kv h1
      · simp only [get_current_profile, if_neg hm]
        rw [ih.2]
        constructor
        · intro h kv hkv
          rcases List.mem_cons.mp hkv with h1 | h1
          · rw [h1]
            exact hm
          · exact h kv h1
        · intro h kv hkv
          exact h kv (List.mem_cons_of_mem _ hkv)

/-- A collection with two profiles sharing the same name+email pair, for the
ambiguity case of claim C7. -/
def colShared : ProfileCollection :=
  [("alice", { name := some "X", email := some "x@y" }),
   ("bob", { name := some "X", email := some "x@y" })]

/-- Witness for C7 at a concrete input: with two profiles sharing the
identity pair, the first one in mapping order ("alice") is returned, and it
is preceded by no matching entry. -/
theorem get_current_profile_first_match_witness :
    ∃ pre p post, colShared = pre ++ ("alice", p) :: post ∧
      (p.name.getD "" = "X" ∧ p.email.getD "" = "x@y") ∧
      ∀ kv ∈ pre, ¬(kv.2.name.getD "" = "X" ∧ kv.2.email.getD "" = "x@y") :=
  (get_current_profile_first_match colShared "X" "x@y").1 "alice" (by decide)

/-- Protocol states of a device-authorization session
(`GitHubOAuthDialog`): `polling` while the dialog runs, the others per the
branch of `poll_for_token` (or user cancellation) that ended it. -/
inductive AuthState
  | polling
  | succeeded (token : String)
  | expired
  | denied
  | failed (reason : String)
  | cancelled
  deriving DecidableEq, Repr

/-- A device-authorization session: the dialog state of `GitHubOAuthDialog`.
`dialogOpen` is the Qt modal-dialog event loop: `accept()`/`reject()` end it,
and a timer callback can only run while it is true.  `emitted` counts
`auth_completed` token emissions (ghost state for the at-most-once claim). -/
structure Session where
  state : AuthState
  interval : Nat
  expires_in : Int
  countdownActive : Bool
  pollActive : Bool
  dialogOpen : Bool
  emitted : Nat
  deriving DecidableEq, Repr

/-- Server response to one token poll: a JSON body with an `error` string
(and, for `slow_down`, an optional replacement interval), a body with an
access token, a body with neither key, or a network failure
(`requests.RequestException`, swallowed by the handler). -/
inductive PollData
  | err (reason : String) (interval : Option Nat)
  | tok (t : String)
  | other
  | netFail
  deriving DecidableEq, Repr

/-- `GitHubOAuthDialog.poll_for_token` (src/app.py lines 104-138), the
response classification: `authorization_pending` is a no-op; `slow_down`
replaces the interval with the server-suggested value, defaulting to
current+5 (`data.get('interval', self.interval + 5)`); `expired_token`,
`access_denied` and any other error reject the dialog; an access token is
emitted once, the poll timer stopped, and the dialog accepted; a network
failure only reports and changes nothing. -/
def poll_for_token (s : Session) (d : PollData) : Session :=
  match d with
  | .netFail => s
  | .other => s
  | .tok t =>
    { s with state := .succeeded t, emitted := s.emitted + 1, pollActive := false,
             dialogOpen := false }
  | .err reason i =>
    if reason = "authorization_pending" then s
    else if reason = "slow_down" then { s with interval := i.getD (s.interval + 5) }
    else if reason = "expired_token" then { s with state := .expired, dialogOpen := false }
    else if reason = "access_denied" then { s with state := .denied, dialogOpen := false }
    else { s with state := .failed reason, dialogOpen := false }

/-- `GitHubOAuthDialog.update_timer` (src/app.py lines 94-99): decrement the
countdown; at zero stop the countdown timer (and enable the retry button) —
the session state and the polling are not touched. -/
def update_timer (s : Session) : Session :=
  if s.expires_in - 1 ≤ 0 then
    { s with expires_in := s.expires_in - 1, countdownActive := false }
  else { s with expires_in := s.expires_in - 1 }

/-- Events a session can receive: a poll-timer tick carrying the server's
response, a countdown tick, or the user closing the dialog. -/
inductive Ev
  | poll (d : PollData)
  | tick
  | cancel
  deriving DecidableEq, Repr

/-- Event dispatch with Qt modal-dialog semantics: a QTimer callback fires
only while its timer is active and the dialog's event loop is still running
(`exec_` has not returned via `accept()`/`reject()`); otherwise the event is
dropped. -/
def step (s : Session) (e : Ev) : Session :=
  match e with
  | .poll d => if s.dialogOpen && s.pollActive then poll_for_token s d else s
  | .tick => if s.dialogOpen && s.countdownActive then update_timer s else s
  | .cancel => if s.dialogOpen then { s with state := .cancelled, dialogOpen := false } else s

/-- A fresh session as built by `GitHubOAuthDialog.__init__`/`init_ui`: both
timers started, dialog open, no token emitted. -/
def initSession (expires_in : Int) (interval : Nat) : Session :=
  { state := .polling, interval := interval, expires_in := expires_in,
    countdownActive := true, pollActive := true, dialogOpen := true, emitted := 0 }

/-- Run a session through a sequence of events. -/
def run (s : Session) (evs : List Ev) : Session := evs.foldl step s

/-- The four terminal states of claim C9. -/
def isTerminal : AuthState → Bool
  | .succeeded _ => true
  | .expired => true
  | .denied => true
  | .cancelled => true
  | _ => false

/-- Inductive invariant of the session machine: while the dialog is open the
state is still `polling` and nothing has been emitted, and at most one token
is ever emitted. -/
def SessionInv (s : Session) : Prop :=
  (s.dialogOpen = true → s.state = AuthState.polling ∧ s.emitted = 0) ∧ s.emitted ≤ 1

theorem step_of_closed (s : Session) (e : Ev) (h : s.dialogOpen = false) : step s e = s := by
  cases e <;> simp [step, h]

theorem update_timer_frame (s : Session) :
    (update_timer s).state = s.state ∧ (update_timer s).dialogOpen = s.dialogOpen ∧
      (update_timer s).emitted = s.emitted := by
  unfold update_timer
  split <;> exact ⟨rfl, rfl, rfl⟩

theorem poll_preserves_inv (s : Session) (d : PollData) (hs : SessionInv s)
    (hopen : s.dialogOpen = true) : SessionInv (poll_for_token s d) := by
  obtain ⟨hl, hr⟩ := hs
  obtain ⟨hpoll, hem⟩ := hl hopen
  cases d with
  | netFail => exact ⟨hl, hr⟩
  | other => exact ⟨hl, hr⟩
  | tok t =>
    refine ⟨fun h => ?_, ?_⟩
    · simp [poll_for_token] at h
    · simp [poll_for_token, hem]
  | err reason i =>
    by_cases h1 : reason = "authorization_pending"
    · simpa [poll_for_token, h1] using ⟨hl, hr⟩
    · by_cases h2 : reason = "slow_down"
      · refine ⟨fun _ => ?_, ?_⟩
        · simp [poll_for_token, h1, h2, hpoll, hem]
        · simpa [poll_for_token, h1, h2] using hr
      · by_cases h3 : reason = "expired_token"
        · refine ⟨fun h => ?_, by simpa [poll_for_token, h1, h2, h3] using hr⟩
          simp [poll_for_token, h1, h2, h3] at h
        · by_cases h4 : reason = "access_denied"
          · refine ⟨fun h => ?_, by simpa [poll_for_token, h1, h2, h3, h4] using hr⟩
            simp [poll_for_token, h1, h2, h3, h4] at h
          · refine ⟨fun h => ?_, by simpa [poll_for_token, h1, h2, h3, h4] using hr⟩
            simp [poll_for_token, h1, h2, h3, h4] at h

theorem step_preserves_inv (s : Session) (e : Ev) (hs : SessionInv s) :
    SessionInv (step s e) := by
  cases hopen : s.dialogOpen with
  | false => rw [step_of_closed s e hopen]; exact hs
  | true =>
    cases e with
    | poll d =>
      cases hpa : s.pollActive with
      | false => simpa [step, hopen, hpa] using hs
      | true =>
        simpa [step, hopen, hpa] using poll_preserves_inv s d hs hopen
    | tick =>
      cases hca : s.countdownActive with
      | false => simpa [step, hopen, hca] using hs
      | true =>
        simp only [step, hopen, hca, Bool.and_self, if_pos]
        obtain ⟨hf1, hf2, hf3⟩ := update_timer_frame s
        exact ⟨fun h => by rw [hf2] at h; exact ⟨hf1 ▸ (hs.1 h).1, hf3 ▸ (hs.1 h).2⟩,
          hf3 ▸ hs.2⟩
    | cancel =>
      refine ⟨fun h => ?_, ?_⟩
      · simp [step, hopen] at h
      · simpa [step, hopen] using hs.2

theorem run_preserves_inv (evs : List Ev) (s : Session) (hs : SessionInv s) :
    SessionInv (run s evs) := by
  induction evs generalizing s with
  | nil => exact hs
  | cons ev rest ih => exact ih (step s ev) (step_preserves_inv s ev hs)

/-- Claim C9 — terminal states are absorbing: in every session reachable from
a fresh dialog, once the state is Succeeded, Expired, Denied or Cancelled,
every further poll or countdown tick (or cancel) is a no-op, and at most one
token emission ever happens, even if more success responses arrive. -/
theorem device_terminal_absorbing (e0 : Int) (i0 : Nat) (evs : List Ev) :
    (isTerminal (run (initSession e0 i0) evs).state = true →
      ∀ ev, step (run (initSession e0 i0) evs) ev = run (initSession e0 i0) evs)
  ∧ (run (initSession e0 i0) evs).emitted ≤ 1 := by
  have hinv : SessionInv (run (initSession e0 i0) evs) :=
    run_preserves_inv evs (initSession e0 i0) ⟨fun _ => ⟨rfl, rfl⟩, by simp [initSession]⟩
  refine ⟨fun hterm ev => ?_, hinv.2⟩
  apply step_of_closed
  cases hopen : (run (initSession e0 i0) evs).dialogOpen with
  | false => rfl
  | true =>
    have := (hinv.1 hopen).1
    rw [this] at hterm
    simp [isTerminal] at hterm

/-- Event trace for the C9 witness: one pending response, one success, and a
stray late success that must be dropped. -/
def evsW : List Ev :=
  [Ev.poll (PollData.err "authorization_pending" none),
   Ev.poll (PollData.tok "tok"),
   Ev.poll (PollData.tok "again")]

/-- Witness for C9 at a concrete input: after a success the session is
terminal, a further success poll is a no-op, and exactly one emission
happened. -/
theorem device_terminal_absorbing_witness :
    step (run (initSession 900 5) evsW) (Ev.poll (PollData.tok "late")) =
      run (initSession 900 5) evsW
  ∧ (run (initSession 900 5) evsW).emitted ≤ 1 :=
  ⟨(device_terminal_absorbing 900 5 evsW).1 (by decide) (Ev.poll (PollData.tok "late")),
   (device_terminal_absorbing 900 5 evsW).2⟩

/-- A concrete polling session with a 5-second interval. -/
def sessionAt5 : Session :=
  { state := AuthState.polling, interval := 5, expires_in := 600,
    countdownActive := true, pollActive := true, dialogOpen := true, emitted := 0 }

/-- Counterexample to claim C8 as stated: a `slow_down` response carrying the
server-suggested interval 5 does NOT strictly increase the current interval
of 5 — the handler sets the interval to the suggested value even when that is
not an increase. -/
theorem slow_down_counterexample :
    sessionAt5.state = AuthState.polling ∧
      ¬ (poll_for_token sessionAt5 (PollData.err "slow_down" (some 5))).interval >
          sessionAt5.interval := by
  decide

/-- Claim C8 as amended: in state Polling, a `slow_down` response sets the
next poll interval to the server-suggested value when present — a strict
increase only when the server suggests none, in which case it becomes
current+5 — and changes nothing else about the session; an
`authorization_pending` response changes neither the state nor the
interval (it changes nothing at all). -/
theorem poll_backoff_amended (s : Session) (i j : Option Nat)
    (_hpolling : s.state = AuthState.polling) :
    poll_for_token s (PollData.err "slow_down" i) =
      { s with interval := i.getD (s.interval + 5) }
  ∧ (poll_for_token s (PollData.err "slow_down" none)).interval > s.interval
  ∧ poll_for_token s (PollData.err "authorization_pending" j) = s := by
  refine ⟨?_, ?_, ?_⟩
  · simp [poll_for_token]
  · simp [poll_for_token]
  · simp [poll_for_token]

/-- Witness for the amended C8 at a concrete input: the suggested value 30 is
adopted verbatim, an absent suggestion yields current+5 (a strict increase),
and a pending response is the identity. -/
theorem poll_backoff_amended_witness :
    poll_for_token sessionAt5 (PollData.err "slow_down" (some 30)) =
      { sessionAt5 with interval := 30 }
  ∧ (poll_for_token sessionAt5 (PollData.err "slow_down" none)).interval > sessionAt5.interval
  ∧ poll_for_token sessionAt5 (PollData.err "authorization_pending" none) = sessionAt5 :=
  ⟨(poll_backoff_amended sessionAt5 (some 30) none rfl).1,
   (poll_backoff_amended sessionAt5 none none rfl).2.1,
   (poll_backoff_amended sessionAt5 none none rfl).2.2⟩

/-- The external git state the manager writes through to: global
`user.name`, `user.email`, `credential.helper`, and the single GitHub
credential slot (username, token) of the credential store. -/
structure GitState where
  userName : Option String
  userEmail : Option String
  credentialHelper : Option String
  cred : Option (String × String)
  deriving DecidableEq, Repr

/-- A git state with no identity, no helper and no stored credential. -/
def clearedGit : GitState :=
  { userName := none, userEmail := none, credentialHelper := none, cred := none }

/-- `GitHubProfileManager.update_git_config` (src/app.py lines 587-604): on
success the whole external identity is rewritten (credentials reset, then
name/email/helper set and the token approved).  On a `CalledProcessError`
the method CATCHES the error, shows a message and returns normally; the
failing run is modelled as having performed only the initial idempotent
credential reset (which swallows its own errors), per the remove-then-approve
sequence of the source. -/
def update_git_config (g : GitState) (username name email token : String)
    (gitOk : Bool) : GitState :=
  if gitOk then
    { userName := some name, userEmail := some email,
      credentialHelper := some "manager-core", cred := some (username, token) }
  else { g with cred := none }

/-- `GitHubProfileManager.remove_git_credential` (src/app.py lines 716-721):
reject the stored credential for one username; a failure is printed and
swallowed. -/
def remove_git_credential (g : GitState) (username : String) (gitOk : Bool) : GitState :=
  if gitOk then
    { g with cred := if g.cred.map Prod.fst = some username then none else g.cred }
  else g

/-- `GitHubProfileManager.switch_profile` / `switch_to_profile`
(src/app.py lines 630-654 and 723-734), their shared effect on a chosen
username: require a stored profile with a truthy token (else the operation
aborts with an error and changes nothing), write the identity through, then
set the in-memory flags.  Because `update_git_config` swallows subprocess
errors, the flags are set and success is reported even when `gitOk` is
false.  The boolean result is whether the success path was taken. -/
def switch_profile (c : ProfileCollection) (g : GitState) (username : String)
    (gitOk : Bool) : ProfileCollection × GitState × Bool :=
  match lookupProfile c username with
  | none => (c, g, false)
  | some profile =>
    match profile.token with
    | none => (c, g, false)
    | some token =>
      if token = "" then (c, g, false)
      else
        (update_current_profile c username,
         update_git_config g username (profile.name.getD username) (profile.email.getD "")
           token gitOk,
         true)

/-- `GitHubProfileManager.clear_git_config` (src/app.py lines 736-752): on
success unset the identity, the helper and all GitHub credentials, then
clear every `is_current` flag.  A failing git subprocess raises before the
flag loop, so neither the git state nor the flags change. -/
def clear_git_config (c : ProfileCollection) (g : GitState) (gitOk : Bool) :
    ProfileCollection × GitState :=
  if gitOk then (clearFlags c, clearedGit) else (c, g)

/-- Accumulator recursion computing the minimum key;
`minKey` packages it as `sorted(self.profiles.keys())[0]`. -/
def minKeyAcc : Option String → ProfileCollection → Option String
  | acc, [] => acc
  | none, kv :: rest => minKeyAcc (some kv.1) rest
  | some m, kv :: rest => minKeyAcc (some (if kv.1 < m then kv.1 else m)) rest

/-- `sorted(self.profiles.keys())[0]` (src/app.py line 699): the
lexicographically smallest username, or none if the store is empty. -/
def minKey (c : ProfileCollection) : Option String := minKeyAcc none c

/-- `del self.profiles[username]` (src/app.py line 686). -/
def eraseKey (c : ProfileCollection) (username : String) : ProfileCollection :=
  c.filter (fun kv => kv.1 != username)

/-- `GitHubProfileManager.delete_profile` (src/app.py lines 661-714): an
unknown username aborts; deleting the current profile asks for confirmation;
after removal, if the deleted profile was current, the lexicographically
smallest remaining username is activated via `switch_to_profile` (whose
missing-token failure is caught at the delete boundary, leaving no profile
active), or the git config is cleared when none remain. -/
def delete_profile (c : ProfileCollection) (g : GitState) (username : String)
    (confirm gitOk : Bool) : ProfileCollection × GitState :=
  match lookupProfile c username with
  | none => (c, g)
  | some profile =>
    if profile.is_current && !confirm then (c, g)
    else
      if profile.is_current then
        match minKey (eraseKey c username) with
        | some new_current =>
          ((switch_profile (eraseKey c username) (remove_git_credential g username gitOk)
              new_current gitOk).1,
           (switch_profile (eraseKey c username) (remove_git_credential g username gitOk)
              new_current gitOk).2.1)
        | none =>
          clear_git_config (eraseKey c username) (remove_git_credential g username gitOk) gitOk
      else (eraseKey c username, remove_git_credential g username gitOk)

/-- A one-profile collection whose profile has a token but is not yet
active. -/
def colAlice : ProfileCollection :=
  [("alice", { token := some "t", name := some "Alice", email := some "a@x.com" })]

/-- Claim C1, evaluated at the failing input: activating "alice" while the
git write-through fails (`gitOk = false`, i.e. `git config` exits non-zero)
still flips her `is_current` flag from 0 active profiles to 1 and still
reports success, because `update_git_config` swallows the subprocess error —
the in-memory model is NOT left as it was and the operation does not fail. -/
theorem switch_commits_despite_git_failure :
    countActive colAlice = 0 ∧
    (switch_profile colAlice clearedGit "alice" false).1 =
      update_current_profile colAlice "alice" ∧
    countActive (switch_profile colAlice clearedGit "alice" false).1 = 1 ∧
    (switch_profile colAlice clearedGit "alice" false).2.2 = true := by
  decide

theorem keysOf_cons (kv : String × Profile) (rest : ProfileCollection) :
    keysOf (kv :: rest) = kv.1 :: keysOf rest := rfl

theorem countActive_cons_active (k : String) (p : Profile) (rest : ProfileCollection)
    (h : p.is_current = true) :
    countActive ((k, p) :: rest) = 1 + countActive rest := by
  simp [countActive, List.filter_cons, h]
  omega

theorem countActive_cons_inactive (k : String) (p : Profile) (rest : ProfileCollection)
    (h : p.is_current = false) :
    countActive ((k, p) :: rest) = countActive rest := by
  simp [countActive, List.filter_cons, h]

theorem bool_eq_false_of_ne_true (b : Bool) (h : ¬ b = true) : b = false := by
  cases hh : b
  · rfl
  · exact absurd hh h

theorem eraseKey_cons_self (k : String) (p : Profile) (rest : ProfileCollection) (u : String)
    (h : k = u) : eraseKey ((k, p) :: rest) u = eraseKey rest u := by
  simp [eraseKey, List.filter_cons, h]

theorem eraseKey_cons_ne (k : String) (p : Profile) (rest : ProfileCollection) (u : String)
    (h : ¬ k = u) : eraseKey ((k, p) :: rest) u = (k, p) :: eraseKey rest u := by
  simp [eraseKey, List.filter_cons, h]

theorem countActive_eraseKey_le (c : ProfileCollection) (u : String) :
    countActive (eraseKey c u) ≤ countActive c := by
  induction c with
  | nil => exact Nat.le_refl 0
  | cons kv rest ih =>
    obtain ⟨k, p⟩ := kv
    by_cases hk : k = u
    · rw [eraseKey_cons_self k p rest u hk]
      by_cases hc : p.is_current = true
      · rw [countActive_cons_active k p rest hc]
        omega
      · rw [countActive_cons_inactive k p rest (bool_eq_false_of_ne_true _ hc)]
        exact ih
    · rw [eraseKey_cons_ne k p rest u hk]
      by_cases hc : p.is_current = true
      · rw [countActive_cons_active k p _ hc, countActive_cons_active k p rest hc]
        omega
      · rw [countActive_cons_inactive k p _ (bool_eq_false_of_ne_true _ hc),
          countActive_cons_inactive k p rest (bool_eq_false_of_ne_true _ hc)]
        exact ih

theorem countActive_pos_of_active (c : ProfileCollection) (u : String) (q : Profile)
    (h : lookupProfile c u = some q) (hq : q.is_current = true) : 1 ≤ countActive c := by
  induction c with
  | nil => simp [lookupProfile] at h
  | cons kv rest ih =>
    obtain ⟨k, p⟩ := kv
    by_cases hk : k = u
    · rw [lookupProfile, if_pos hk, Option.some.injEq] at h
      rw [countActive_cons_active k p rest (h ▸ hq)]
      omega
    · rw [lookupProfile, if_neg hk] at h
      have := ih h
      by_cases hc : p.is_current = true
      · rw [countActive_cons_active k p rest hc]
        omega
      · rw [countActive_cons_inactive k p rest (bool_eq_false_of_ne_true _ hc)]
        exact this

theorem countActive_eraseKey_active_zero (c : ProfileCollection) (u : String) (p : Profile)
    (hnd : (keysOf c).Nodup) (hu : lookupProfile c u = some p) (hcur : p.is_current = true)
    (hinv : countActive c ≤ 1) : countActive (eraseKey c u) = 0 := by
  induction c with
  | nil => simp [lookupProfile] at hu
  | cons kv rest ih =>
    obtain ⟨k, q⟩ := kv
    have hnd' : (keysOf rest).Nodup := (List.nodup_cons.mp (keysOf_cons (k, q) rest ▸ hnd)).2
    by_cases hk : k = u
    · rw [lookupProfile, if_pos hk, Option.some.injEq] at hu
      rw [countActive_cons_active k q rest (hu ▸ hcur)] at hinv
      rw [eraseKey_cons_self k q rest u hk]
      have := countActive_eraseKey_le rest u
      omega
    · rw [lookupProfile, if_neg hk] at hu
      rw [eraseKey_cons_ne k q rest u hk]
      by_cases hq : q.is_current = true
      · have h1 := countActive_pos_of_active rest u p hu hcur
        rw [countActive_cons_active k q rest hq] at hinv
        omega
      · have hf := bool_eq_false_of_ne_true _ hq
        rw [countActive_cons_inactive k q rest hf] at hinv
        rw [countActive_cons_inactive k q _ hf]
        exact ih hnd' hu hinv

theorem update_current_profile_cons (k : String) (p : Profile) (rest : ProfileCollection)
    (u : String) :
    update_current_profile ((k, p) :: rest) u =
      (k, { p with is_current := decide (k = u) }) :: update_current_profile rest u := rfl

theorem countActive_ucp_not_mem (c : ProfileCollection) (u : String) (h : u ∉ keysOf c) :
    countActive (update_current_profile c u) = 0 := by
  induction c with
  | nil => rfl
  | cons kv rest ih =>
    obtain ⟨k, p⟩ := kv
    rw [keysOf_cons] at h
    have h1 : ¬ u = k := fun hh => h (hh ▸ List.mem_cons_self _ _)
    have h2 : u ∉ keysOf rest := fun hh => h (List.mem_cons_of_mem _ hh)
    rw [update_current_profile_cons,
      countActive_cons_inactive _ _ _ (by simpa using fun hh => h1 hh.symm)]
    exact ih h2

theorem countActive_ucp_eq_one (c : ProfileCollection) (u : String) (q : Profile)
    (hnd : (keysOf c).Nodup) (h : lookupProfile c u = some q) :
    countActive (update_current_profile c u) = 1 := by
  induction c with
  | nil => simp [lookupProfile] at h
  | cons kv rest ih =>
    obtain ⟨k, p⟩ := kv
    have hcons := List.nodup_cons.mp (keysOf_cons (k, p) rest ▸ hnd)
    rw [update_current_profile_cons]
    by_cases hk : k = u
    · rw [countActive_cons_active _ _ _ (by simpa using hk)]
      rw [countActive_ucp_not_mem rest u (hk ▸ hcons.1)]
    · rw [countActive_cons_inactive _ _ _ (by simpa using hk)]
      rw [lookupProfile, if_neg hk] at h
      exact ih hcons.2 h

theorem lookupProfile_ucp (c : ProfileCollection) (u : String) (q : Profile)
    (h : lookupProfile c u = some q) :
    lookupProfile (update_current_profile c u) u = some { q with is_current := true } := by
  simp [update_current_profile, lookupProfile_mapEntries, h]

theorem minKeyAcc_some_le (c : ProfileCollection) (m v : String)
    (h : minKeyAcc (some m) c = some v) :
    v ≤ m ∧ (v = m ∨ v ∈ keysOf c) ∧ ∀ k ∈ keysOf c, v ≤ k := by
  induction c generalizing m with
  | nil =>
    rw [minKeyAcc, Option.some.injEq] at h
    exact ⟨h ▸ le_refl v, Or.inl h.symm, by simp [keysOf]⟩
  | cons kv rest ih =>
    rw [minKeyAcc] at h
    obtain ⟨h1, h2, h3⟩ := ih _ h
    rw [keysOf_cons]
    by_cases hlt : kv.1 < m
    · rw [if_pos hlt] at h1 h2
      refine ⟨le_trans h1 (le_of_lt hlt), Or.inr ?_, ?_⟩
      · rcases h2 with h2 | h2
        · exact h2 ▸ List.mem_cons_self _ _
        · exact List.mem_cons_of_mem _ h2
      · intro k hk
        rcases List.mem_cons.mp hk with hk1 | hk1
        · exact hk1 ▸ h1
        · exact h3 k hk1
    · rw [if_neg hlt] at h1 h2
      refine ⟨h1, ?_, ?_⟩
      · rcases h2 with h2 | h2
        · exact Or.inl h2
        · exact Or.inr (List.mem_cons_of_mem _ h2)
      · intro k hk
        rcases List.mem_cons.mp hk with hk1 | hk1
        · exact hk1 ▸ le_trans h1 (le_of_not_lt hlt)
        · exact h3 k hk1

theorem minKey_spec (c : ProfileCollection) (v : String) (h : minKey c = some v) :
    v ∈ keysOf c ∧ ∀ k ∈ keysOf c, v ≤ k := by
  cases c with
  | nil => simp [minKey, minKeyAcc] at h
  | cons kv rest =>
    rw [minKey, minKeyAcc] at h
    obtain ⟨h1, h2, h3⟩ := minKeyAcc_some_le rest kv.1 v h
    rw [keysOf_cons]
    constructor
    · rcases h2 with h2 | h2
      · exact h2 ▸ List.mem_cons_self _ _
      · exact List.mem_cons_of_mem _ h2
    · intro k hk
      rcases List.mem_cons.mp hk with hk1 | hk1
      · exact hk1 ▸ h1
      · exact h3 k hk1

theorem keysOf_eraseKey_nodup (c : ProfileCollection) (u : String)
    (hnd : (keysOf c).Nodup) : (keysOf (eraseKey c u)).Nodup := by
  have hsub : List.Sublist (eraseKey c u) c := List.filter_sublist c
  exact List.Nodup.sublist (hsub.map Prod.fst) hnd

/-- A two-profile collection whose active profile "alice" has a token and
whose other profile "bob" does not. -/
def colTwoCE : ProfileCollection :=
  [("alice", { token := some "ta", name := some "Alice", is_current := true }),
   ("bob", { name := some "Bob" })]

/-- Counterexample to claim C3 as stated: deleting the active profile
"alice" from a collection of 2 leaves a non-empty collection with ZERO
active profiles, because the fallback activation of the smallest remaining
identifier "bob" aborts on his missing token. -/
theorem delete_active_counterexample :
    colTwoCE.length > 1 ∧ eraseKey colTwoCE "alice" ≠ [] ∧
      countActive (delete_profile colTwoCE clearedGit "alice" true true).1 = 0 := by
  decide

/-- Claim C3 as amended: deleting the active profile (confirmed, git
subprocesses succeeding) from a collection in which other profiles remain
activates the lexicographically smallest remaining identifier — exactly one
profile is active and the external identity is rewritten to it — PROVIDED
that profile has a truthy token; when the smallest remaining identifier has
no usable token the fallback activation aborts and zero profiles are active.
Deleting the last remaining profile leaves the empty collection and a fully
cleared external identity. -/
theorem delete_active_fallback_amended (c : ProfileCollection) (g : GitState) (u : String)
    (p : Profile) (hnd : (keysOf c).Nodup) (hu : lookupProfile c u = some p)
    (hcur : p.is_current = true) (hinv : countActive c ≤ 1) :
    (∀ v q, minKey (eraseKey c u) = some v → lookupProfile (eraseKey c u) v = some q →
      (truthy q.token = true →
        countActive (delete_profile c g u true true).1 = 1 ∧
        lookupProfile (delete_profile c g u true true).1 v =
          some { q with is_current := true } ∧
        (∀ k ∈ keysOf (eraseKey c u), v ≤ k) ∧
        (delete_profile c g u true true).2.userName = some (q.name.getD v) ∧
        (delete_profile c g u true true).2.userEmail = some (q.email.getD "") ∧
        (delete_profile c g u true true).2.cred = some (v, q.token.getD "")) ∧
      (truthy q.token = false →
        countActive (delete_profile c g u true true).1 = 0))
  ∧ (eraseKey c u = [] → delete_profile c g u true true = ([], clearedGit)) := by
  have hc1nd : (keysOf (eraseKey c u)).Nodup := keysOf_eraseKey_nodup c u hnd
  have hzero : countActive (eraseKey c u) = 0 :=
    countActive_eraseKey_active_zero c u p hnd hu hcur hinv
  constructor
  · intro v q hmin hlq
    constructor
    · intro htok
      cases hqt : q.token with
      | none =>
        rw [hqt] at htok
        simp [truthy] at htok
      | some t =>
        rw [hqt] at htok
        have ht : ¬ t = "" := by simpa [truthy] using htok
        have hdel : delete_profile c g u true true =
            (update_current_profile (eraseKey c u) v,
             update_git_config (remove_git_credential g u true) v (q.name.getD v)
               (q.email.getD "") t true) := by
          simp only [delete_profile, hu, hcur, Bool.not_true, Bool.and_false,
            Bool.false_eq_true, if_false, if_true, hmin]
          simp [switch_profile, hlq, hqt, ht]
        rw [hdel]
        refine ⟨countActive_ucp_eq_one _ v q hc1nd hlq, ?_,
          (minKey_spec _ v hmin).2, ?_, ?_, ?_⟩
        · simpa [hqt] using lookupProfile_ucp _ v q hlq
        · simp [update_git_config]
        · simp [update_git_config]
        · simp [update_git_config, hqt]
    · intro htok
      have hdel : delete_profile c g u true true =
          (eraseKey c u, remove_git_credential g u true) := by
        simp only [delete_profile, hu, hcur, Bool.not_true, Bool.and_false,
          Bool.false_eq_true, if_false, if_true, hmin]
        cases hqt : q.token with
        | none => simp [switch_profile, hlq, hqt]
        | some t =>
          rw [hqt] at htok
          have ht : t = "" := by simpa [truthy] using htok
          simp [switch_profile, hlq, hqt, ht]
      rw [hdel]
      exact hzero
  · intro hempty
    have hmin : minKey (eraseKey c u) = none := by rw [hempty]; rfl
    have hdel : delete_profile c g u true true =
        clear_git_config (eraseKey c u) (remove_git_credential g u true) true := by
      simp only [delete_profile, hu, hcur, Bool.not_true, Bool.and_false,
        Bool.false_eq_true, if_false, if_true, hmin]
    rw [hdel, hempty]
    simp [clear_git_config, clearFlags, mapEntries]

/-- The profile stored under "alice" in the C3 witness collection. -/
def pAliceW : Profile := { token := some "ta", name := some "Alice", email := some "a@x" }

/-- A two-profile collection whose active profile "bob" is deleted in the C3
witness; the remaining "alice" has a token. -/
def pBobW : Profile :=
  { token := some "tb", name := some "Bob", email := some "b@x", is_current := true }

def colW : ProfileCollection := [("bob", pBobW), ("alice", pAliceW)]

/-- Witness for the amended C3 at a concrete input: deleting active "bob"
leaves exactly one active profile, "alice" (the smallest remaining key),
with the external identity rewritten to her name/email/token. -/
theorem delete_active_fallback_amended_witness :
    countActive (delete_profile colW clearedGit "bob" true true).1 = 1 ∧
    lookupProfile (delete_profile colW clearedGit "bob" true true).1 "alice" =
      some { pAliceW with is_current := true } ∧
    (∀ k ∈ keysOf (eraseKey colW "bob"), "alice" ≤ k) ∧
    (delete_profile colW clearedGit "bob" true true).2.userName = some "Alice" ∧
    (delete_profile colW clearedGit "bob" true true).2.userEmail = some "a@x" ∧
    (delete_profile colW clearedGit "bob" true true).2.cred = some ("alice", "ta") :=
  ((delete_active_fallback_amended colW clearedGit "bob" pBobW
      (by decide) (by decide) rfl (by decide)).1 "alice" pAliceW (by decide)
      (by decide)).1 (by decide)

/-- `GitHubProfileManager.load_profiles` (src/app.py lines 329-352), its
effect on the collection: replace it by the keyring profiles merged with the
external git credential slot, then resolve the current profile against the
global git identity — marking the match, or clearing every `is_current` flag
when there is none. -/
def load_profiles (keyring_profiles : ProfileCollection) (git_profile : GitCredential)
    (gitName gitEmail : String) : ProfileCollection :=
  match get_current_profile (merge_profiles keyring_profiles git_profile) gitName gitEmail with
  | some u => update_current_profile (merge_profiles keyring_profiles git_profile) u
  | none => clearFlags (merge_profiles keyring_profiles git_profile)

/-- The startup step after `load_profiles` in `__init__` (src/app.py lines
202-204): mark the profile matching the global git identity, if any. -/
def resolve_current (c : ProfileCollection) (gitName gitEmail : String) : ProfileCollection :=
  match get_current_profile c gitName gitEmail with
  | some u => update_current_profile c u
  | none => c

/-- The new-profile dict built by `handle_oauth_completion` (src/app.py
lines 552-558). -/
def profileFromOauth (token : String) (name email : Option String) (tag : String)
    (avatar_url : Option String) (username : String) : Profile :=
  { token := some token
    name := some (strOr name username)
    email := some (strOr email "")
    tag := some tag
    avatar_url := avatar_url
    is_current := false }

/-- `GitHubProfileManager.handle_oauth_completion` (src/app.py lines
538-585), its effect on the collection: a falsy token, a falsy username from
the API, an already-stored username, or a cancelled tag prompt change
nothing; otherwise the new profile is appended and, when no stored profile
matches the global git identity, it is made current (`switch_to_profile`
then repeats the same flag update and git write). -/
def handle_oauth_completion (c : ProfileCollection) (token : String)
    (username : Option String) (name email avatar_url : Option String) (tag : String)
    (tagOk : Bool) (gitName gitEmail : String) : ProfileCollection :=
  if token = "" then c
  else
    match username with
    | none => c
    | some u =>
      if u = "" then c
      else if (lookupProfile c u).isSome then c
      else if tagOk then
        if (get_current_profile (c ++ [(u, profileFromOauth token name email tag avatar_url u)])
            gitName gitEmail).isSome then
          c ++ [(u, profileFromOauth token name email tag avatar_url u)]
        else
          update_current_profile (c ++ [(u, profileFromOauth token name email tag avatar_url u)]) u
      else c

/-- `GitHubProfileManager.edit_profile` (src/app.py lines 761-823), its
effect on the collection: when a stored profile is selected and the dialog
accepted, overwrite its name, email and tag (the `is_current` flag is not
touched); otherwise nothing changes. -/
def edit_profile (c : ProfileCollection) (username newName newEmail newTag : String)
    (accepted : Bool) : ProfileCollection :=
  match lookupProfile c username with
  | none => c
  | some profile =>
    if accepted then
      setProfile c username
        { profile with name := some newName, email := some newEmail, tag := some newTag }
    else c

/-- The collection states reachable by the manager's operations, starting
from the empty store: hydration/merge, startup resolution, adding an
account, switching, editing, deleting, and clearing the git config
(deactivate-all).  Keyring hydration yields unique usernames (the store is a
dict keyed by username), recorded as the Nodup hypothesis. -/
inductive Reachable : ProfileCollection → Prop
  | init : Reachable []
  | load (keyring_profiles : ProfileCollection) (git_profile : GitCredential)
      (gitName gitEmail : String) (hnd : (keysOf keyring_profiles).Nodup)
      (c : ProfileCollection) (h : Reachable c) :
      Reachable (load_profiles keyring_profiles git_profile gitName gitEmail)
  | resolve (gitName gitEmail : String) (c : ProfileCollection) (h : Reachable c) :
      Reachable (resolve_current c gitName gitEmail)
  | add (token : String) (username : Option String) (name email avatar_url : Option String)
      (tag : String) (tagOk : Bool) (gitName gitEmail : String) (c : ProfileCollection)
      (h : Reachable c) :
      Reachable (handle_oauth_completion c token username name email avatar_url tag tagOk
        gitName gitEmail)
  | switch (username : String) (g : GitState) (gitOk : Bool) (c : ProfileCollection)
      (h : Reachable c) : Reachable (switch_profile c g username gitOk).1
  | edit (username newName newEmail newTag : String) (accepted : Bool)
      (c : ProfileCollection) (h : Reachable c) :
      Reachable (edit_profile c username newName newEmail newTag accepted)
  | delete (username : String) (g : GitState) (confirm gitOk : Bool) (c : ProfileCollection)
      (h : Reachable c) : Reachable (delete_profile c g username confirm gitOk).1
  | deactivate (g : GitState) (gitOk : Bool) (c : ProfileCollection) (h : Reachable c) :
      Reachable (clear_git_config c g gitOk).1

/-- Well-formedness carried through the reachability proof: unique usernames
and at most one active profile. -/
def GoodCol (c : ProfileCollection) : Prop := (keysOf c).Nodup ∧ countActive c ≤ 1

theorem countActive_clearFlags (c : ProfileCollection) : countActive (clearFlags c) = 0 := by
  induction c with
  | nil => rfl
  | cons kv rest ih =>
    obtain ⟨k, p⟩ := kv
    show countActive ((k, { p with is_current := false }) :: clearFlags rest) = 0
    rw [countActive_cons_inactive _ _ _ rfl]
    exact ih

theorem countActive_append (c d : ProfileCollection) :
    countActive (c ++ d) = countActive c + countActive d := by
  simp [countActive, List.filter_append]

theorem countActive_ucp_le_one (c : ProfileCollection) (u : String)
    (hnd : (keysOf c).Nodup) : countActive (update_current_profile c u) ≤ 1 := by
  cases hl : lookupProfile c u with
  | none =>
    rw [countActive_ucp_not_mem c u ((lookupProfile_none_iff c u).mp hl)]
    omega
  | some q => rw [countActive_ucp_eq_one c u q hnd hl]

theorem nodup_keys_append_single (c : ProfileCollection) (u : String) (p : Profile)
    (hnd : (keysOf c).Nodup) (h : u ∉ keysOf c) : (keysOf (c ++ [(u, p)])).Nodup := by
  have heq : keysOf (c ++ [(u, p)]) = keysOf c ++ [u] := by simp [keysOf]
  rw [heq]
  refine List.Nodup.append hnd (List.nodup_singleton u) ?_
  intro a ha hb
  rw [List.mem_singleton] at hb
  exact h (hb ▸ ha)

theorem merge_profiles_nodup (k : ProfileCollection) (gp : GitCredential)
    (hnd : (keysOf k).Nodup) : (keysOf (merge_profiles k gp)).Nodup := by
  obtain ⟨eu, epw, en, ee⟩ := gp
  cases eu with
  | none => exact hnd
  | some u =>
    cases epw with
    | none => exact hnd
    | some pw =>
      by_cases h0 : u = ""
      · simpa [merge_profiles, h0] using hnd
      · cases hl : lookupProfile k u with
        | some p =>
          have : merge_profiles k ⟨some u, some pw, en, ee⟩ =
              setProfile k u (fillMissing p ⟨some u, some pw, en, ee⟩) := by
            simp [merge_profiles, h0, hl]
          rw [this]
          show (keysOf (mapEntries _ k)).Nodup
          rw [keysOf_mapEntries]
          exact hnd
        | none =>
          have : merge_profiles k ⟨some u, some pw, en, ee⟩ =
              k ++ [(u, profileFromGit ⟨some u, some pw, en, ee⟩ u pw)] := by
            simp [merge_profiles, h0, hl]
          rw [this]
          exact nodup_keys_append_single k u _ hnd ((lookupProfile_none_iff k u).mp hl)

theorem load_profiles_good (k : ProfileCollection) (gp : GitCredential)
    (gitName gitEmail : String) (hnd : (keysOf k).Nodup) :
    GoodCol (load_profiles k gp gitName gitEmail) := by
  have hmnd := merge_profiles_nodup k gp hnd
  unfold load_profiles
  cases get_current_profile (merge_profiles k gp) gitName gitEmail with
  | some u =>
    refine ⟨?_, countActive_ucp_le_one _ u hmnd⟩
    show (keysOf (mapEntries _ _)).Nodup
    rw [keysOf_mapEntries]
    exact hmnd
  | none =>
    refine ⟨?_, by rw [countActive_clearFlags]; omega⟩
    show (keysOf (mapEntries _ _)).Nodup
    rw [keysOf_mapEntries]
    exact hmnd

theorem keysOf_ucp (c : ProfileCollection) (u : String) :
    keysOf (update_current_profile c u) = keysOf c := keysOf_mapEntries _ c

theorem keysOf_clearFlags (c : ProfileCollection) :
    keysOf (clearFlags c) = keysOf c := keysOf_mapEntries _ c

theorem keysOf_setProfile (c : ProfileCollection) (u : String) (p : Profile) :
    keysOf (setProfile c u p) = keysOf c := keysOf_mapEntries _ c

theorem resolve_current_good (c : ProfileCollection) (hg : GoodCol c)
    (gitName gitEmail : String) : GoodCol (resolve_current c gitName gitEmail) := by
  unfold resolve_current
  cases get_current_profile c gitName gitEmail with
  | some u =>
    exact ⟨by rw [keysOf_ucp]; exact hg.1, countActive_ucp_le_one c u hg.1⟩
  | none => exact hg

theorem handle_oauth_good (c : ProfileCollection) (hg : GoodCol c) (token : String)
    (username : Option String) (name email avatar_url : Option String) (tag : String)
    (tagOk : Bool) (gitName gitEmail : String) :
    GoodCol (handle_oauth_completion c token username name email avatar_url tag tagOk
      gitName gitEmail) := by
  unfold handle_oauth_completion
  by_cases ht : token = ""
  · rw [if_pos ht]
    exact hg
  · rw [if_neg ht]
    cases username with
    | none => exact hg
    | some u =>
      simp only []
      by_cases hu : u = ""
      · rw [if_pos hu]
        exact hg
      · rw [if_neg hu]
        by_cases hsome : (lookupProfile c u).isSome = true
        · rw [if_pos hsome]
          exact hg
        · rw [if_neg hsome]
          have hnone : lookupProfile c u = none := by
            cases hh : lookupProfile c u with
            | none => rfl
            | some p =>
              rw [hh] at hsome
              simp at hsome
          have hmem : u ∉ keysOf c := (lookupProfile_none_iff c u).mp hnone
          have hndapp :
              (keysOf (c ++ [(u, profileFromOauth token name email tag avatar_url u)])).Nodup :=
            nodup_keys_append_single c u _ hg.1 hmem
          by_cases htag : tagOk = true
          · rw [if_pos htag]
            by_cases hcur : (get_current_profile
                (c ++ [(u, profileFromOauth token name email tag avatar_url u)]) gitName
                gitEmail).isSome = true
            · rw [if_pos hcur]
              refine ⟨hndapp, ?_⟩
              rw [countActive_append]
              have : countActive [(u, profileFromOauth token name email tag avatar_url u)] = 0 := by
                rw [countActive_cons_inactive _ _ _ rfl]
                rfl
              rw [this]
              have h2 := hg.2
              omega
            · rw [if_neg hcur]
              exact ⟨by rw [keysOf_ucp]; exact hndapp, countActive_ucp_le_one _ u hndapp⟩
          · rw [if_neg htag]
            exact hg

theorem switch_profile_fst_cases (c : ProfileCollection) (g : GitState) (u : String)
    (gitOk : Bool) :
    (switch_profile c g u gitOk).1 = c ∨
    (switch_profile c g u gitOk).1 = update_current_profile c u := by
  cases hl : lookupProfile c u with
  | none =>
    left
    simp [switch_profile, hl]
  | some p =>
    cases htk : p.token with
    | none =>
      left
      simp [switch_profile, hl, htk]
    | some t =>
      by_cases ht : t = ""
      · left
        simp [switch_profile, hl, htk, ht]
      · right
        simp [switch_profile, hl, htk, ht]

theorem switch_good (c : ProfileCollection) (g : GitState) (u : String) (gitOk : Bool)
    (hg : GoodCol c) : GoodCol (switch_profile c g u gitOk).1 := by
  rcases switch_profile_fst_cases c g u gitOk with h | h
  · rw [h]
    exact hg
  · rw [h]
    exact ⟨by rw [keysOf_ucp]; exact hg.1, countActive_ucp_le_one c u hg.1⟩

theorem setProfile_cons (k : String) (q : Profile) (rest : ProfileCollection) (u : String)
    (p : Profile) :
    setProfile ((k, q) :: rest) u p = (k, if k = u then p else q) :: setProfile rest u p := rfl

theorem countActive_setProfile_same_flag (c : ProfileCollection) (u : String) (p p' : Profile)
    (hnd : (keysOf c).Nodup) (h : lookupProfile c u = some p)
    (hflag : p'.is_current = p.is_current) :
    countActive (setProfile c u p') = countActive c := by
  induction c with
  | nil => simp [lookupProfile] at h
  | cons kv rest ih =>
    obtain ⟨k, q⟩ := kv
    have hcons := List.nodup_cons.mp (keysOf_cons (k, q) rest ▸ hnd)
    rw [setProfile_cons]
    by_cases hk : k = u
    · rw [lookupProfile, if_pos hk, Option.some.injEq] at h
      rw [if_pos hk, setProfile_of_not_mem rest u p' (hk ▸ hcons.1)]
      have hq : p'.is_current = q.is_current := by rw [hflag, h]
      by_cases hc : q.is_current = true
      · rw [countActive_cons_active _ _ _ hc, countActive_cons_active _ _ _ (hq.trans hc)]
      · have hf := bool_eq_false_of_ne_true _ hc
        rw [countActive_cons_inactive _ _ _ hf, countActive_cons_inactive _ _ _ (hq.trans hf)]
    · rw [if_neg hk]
      rw [lookupProfile, if_neg hk] at h
      by_cases hc : q.is_current = true
      · rw [countActive_cons_active _ _ _ hc, countActive_cons_active _ _ _ hc,
          ih hcons.2 h]
      · have hf := bool_eq_false_of_ne_true _ hc
        rw [countActive_cons_inactive _ _ _ hf, countActive_cons_inactive _ _ _ hf,
          ih hcons.2 h]

theorem edit_good (c : ProfileCollection) (u nn ne nt : String) (accepted : Bool)
    (hg : GoodCol c) : GoodCol (edit_profile c u nn ne nt accepted) := by
  unfold edit_profile
  cases hl : lookupProfile c u with
  | none => exact hg
  | some p =>
    simp only []
    by_cases ha : accepted = true
    · rw [if_pos ha]
      refine ⟨by rw [keysOf_setProfile]; exact hg.1, ?_⟩
      rw [countActive_setProfile_same_flag c u p
        { p with name := some nn, email := some ne, tag := some nt } hg.1 hl rfl]
      exact hg.2
    · rw [if_neg ha]
      exact hg

theorem clear_git_config_good (c : ProfileCollection) (g : GitState) (gitOk : Bool)
    (hg : GoodCol c) : GoodCol (clear_git_config c g gitOk).1 := by
  by_cases hok : gitOk = true
  · simp only [clear_git_config, hok, if_true]
    exact ⟨by rw [keysOf_clearFlags]; exact hg.1, by rw [countActive_clearFlags]; omega⟩
  · simp only [clear_git_config, if_neg hok]
    exact hg

theorem delete_good (c : ProfileCollection) (g : GitState) (u : String)
    (confirm gitOk : Bool) (hg : GoodCol c) : GoodCol (delete_profile c g u confirm gitOk).1 := by
  have herase_nd : (keysOf (eraseKey c u)).Nodup := keysOf_eraseKey_nodup c u hg.1
  have herase_cnt : countActive (eraseKey c u) ≤ 1 :=
    le_trans (countActive_eraseKey_le c u) hg.2
  unfold delete_profile
  cases hl : lookupProfile c u with
  | none => exact hg
  | some p =>
    simp only []
    by_cases hcc : (p.is_current && !confirm) = true
    · rw [if_pos hcc]
      exact hg
    · rw [if_neg hcc]
      by_cases hc : p.is_current = true
      · rw [if_pos hc]
        cases hm : minKey (eraseKey c u) with
        | some v =>
          rcases switch_profile_fst_cases (eraseKey c u) (remove_git_credential g u gitOk) v
            gitOk with h | h
          · rw [h]
            exact ⟨herase_nd, herase_cnt⟩
          · rw [h]
            exact ⟨by rw [keysOf_ucp]; exact herase_nd, countActive_ucp_le_one _ v herase_nd⟩
        | none => exact clear_git_config_good _ _ gitOk ⟨herase_nd, herase_cnt⟩
      · rw [if_neg hc]
        exact ⟨herase_nd, herase_cnt⟩

theorem reachable_good (c : ProfileCollection) (h : Reachable c) : GoodCol c := by
  induction h with
  | init => exact ⟨List.nodup_nil, by decide⟩
  | load k gp gitName gitEmail hnd c h ih => exact load_profiles_good k gp gitName gitEmail hnd
  | resolve gitName gitEmail c h ih => exact resolve_current_good c ih gitName gitEmail
  | add token username name email avatar_url tag tagOk gitName gitEmail c h ih =>
    exact handle_oauth_good c ih token username name email avatar_url tag tagOk gitName gitEmail
  | switch u g gitOk c h ih => exact switch_good c g u gitOk ih
  | edit u nn ne nt accepted c h ih => exact edit_good c u nn ne nt accepted ih
  | delete u g confirm gitOk c h ih => exact delete_good c g u confirm gitOk ih
  | deactivate g gitOk c h ih => exact clear_git_config_good c g gitOk ih

/-- Claim C2 — in every collection reachable by any sequence of the
operations (hydrate/merge, add account, switch, edit, delete,
deactivate-all), the number of profiles with `is_current = true` is 0 or 1,
never more. -/
theorem reachable_at_most_one_active (c : ProfileCollection) (h : Reachable c) :
    countActive c ≤ 1 := (reachable_good c h).2

/-- Keyring content for the C2 witness. -/
def colR : ProfileCollection := [("alice", { token := some "ta", name := some "Al" })]

/-- Witness for C2 at a concrete input: hydrating from a one-profile keyring
and then switching to "alice" is a reachable state with one active
profile. -/
theorem reachable_at_most_one_active_witness :
    Reachable (switch_profile (load_profiles colR {} "N" "E") clearedGit "alice" true).1 ∧
    countActive (switch_profile (load_profiles colR {} "N" "E") clearedGit "alice" true).1 ≤ 1 :=
  ⟨Reachable.switch "alice" clearedGit true _
    (Reachable.load colR {} "N" "E" (by decide) [] Reachable.init),
   reachable_at_most_one_active _
    (Reachable.switch "alice" clearedGit true _
      (Reachable.load colR {} "N" "E" (by decide) [] Reachable.init))⟩
